import Mathlib

/-
Verification development for src/MovePredictionEngine.py (the scoring engine of
the drawing game Mind Unbind).

Modelling conventions:
- Python floats are embedded as exact rationals (ℚ) throughout the algebraic
  kernel; the transcendental score scaling (math.log / math.pow) is embedded
  over the reals (ℝ).
- Python exceptions (ZeroDivisionError, ValueError from math.log, IndexError
  from list indexing) are embedded as Option: a raising computation is none.
- Python list indexing with a possibly negative index follows Python semantics
  (an index i is valid iff -len <= i < len; negative indices count from the
  end); it is embedded by pyIdx below.
- Mutable arrays written in place are embedded as functions updated pointwise;
  the loops of the source become folds over the same index ranges, in the same
  iteration order.
-/

unseal Rat.add Rat.mul Rat.inv Rat.sub

/-- Python list indexing semantics: list[i] for a list of length n succeeds iff
-n <= i < n, a negative index counting from the end. A failed lookup is an
IndexError, embedded as none. -/
def pyIdx (n : ℕ) (i : ℤ) : Option (Fin n) :=
  if h : 0 ≤ i ∧ i < (n : ℤ) then some ⟨i.toNat, by omega⟩
  else if h2 : -(n : ℤ) ≤ i ∧ i < 0 then some ⟨(i + n).toNat, by omega⟩
  else none

/-- BaseMoveWeights.StateCount (line 70): the number of discretized direction
states. -/
abbrev StateCount : ℕ := 30

/-- BaseMoveWeights.BaseDiffPerState (line 71): 4.0 / StateCount. -/
def BaseDiffPerState : ℚ := 4 / (StateCount : ℚ)

/-- BaseMoveWeights.CircularRange (line 77): the 360.0 degree range. -/
def CircularRange : ℚ := 360

/-- Move.states (lines 49-51): a length-StateCount array of reals, embedded as
a function from Fin StateCount. -/
abbrev StateVec := Fin StateCount → ℚ

/-- Move(num_states) initializes all states to 0.0. -/
def zeroStates : StateVec := fun _ => 0

/-- BaseMoveWeights.get_index_at_offset (lines 79-82):
x - StateCount * (x // StateCount) with x = t + offset, where // is Python
floor division (Int.fdiv). The result always lies in [0, StateCount). -/
def get_index_at_offset (t offset : ℤ) : ℤ :=
  t + offset - (StateCount : ℤ) * ((t + offset).fdiv (StateCount : ℤ))

/-- Conversion of a get_index_at_offset result to an in-range array index: the
source indexes length-StateCount Python lists with it, which is total because
the value lies in [0, StateCount). -/
def offIdx (t o : ℤ) : Fin StateCount :=
  ⟨(get_index_at_offset t o).toNat, by
    unfold get_index_at_offset
    rw [Int.fdiv_eq_ediv _ (by norm_num)]
    simp only [StateCount, Nat.cast_ofNat]
    omega⟩

/-- Loop body of BaseMoveWeights.initialize for one template t (lines 86-96):
for j in range(StateCount // 2 + 1), write weight = 1 - BaseDiffPerState * j at
offsets +j and -j from t, into a zero-initialized Move. The second write (at
-j) happens after the first, as in the source. -/
def buildTemplate (t : ℕ) : StateVec :=
  (List.range (StateCount / 2 + 1)).foldl (fun mv (j : ℕ) =>
    let weight : ℚ := 1 - BaseDiffPerState * (j : ℚ)
    Function.update (Function.update mv (offIdx (t : ℤ) (j : ℤ)) weight)
      (offIdx (t : ℤ) (-(j : ℤ))) weight)
    zeroStates

/-- BaseMoveWeights.MoveWeights after initialize() (lines 73, 84-96): the list
whose element at index t is the template built for t. -/
def MoveWeights (t : Fin StateCount) : StateVec := buildTemplate (t : ℕ)

/-- BaseMoveWeights.SumMoveWeights after initialize() (lines 98-99): the sum of
the absolute weights of template 0. -/
def SumMoveWeights : ℚ := ∑ j : Fin StateCount, |MoveWeights 0 j|

/-- Circular distance between two bins: the minimum of the clockwise and the
counterclockwise offset (spec vocabulary for the template shape). -/
def circular_distance (t k : Fin StateCount) : ℕ :=
  min ((((k : ℤ) - (t : ℤ)) % (StateCount : ℤ)).toNat)
    ((((t : ℤ) - (k : ℤ)) % (StateCount : ℤ)).toNat)

/-- Weight tensor of one engine (self.weights, lines 108, 121-122): the cell at
[d][i][j] holds the accumulated correlation weight; all cells start at 0. Cells
with lag d at or beyond the allocated depth are never touched by the source's
loops and stay 0 here. -/
abbrev WeightTensor := ℕ → Fin StateCount → Fin StateCount → ℚ

/-- Mutable per-round state of MovePredictionEngine (lines 105-122):
history_depth, the move history (most recent first) and the weight tensor. The
derived constants scoreScaler and ScoreScalerMiddle are pure functions of
history_depth (computed in __init__ from it) and are embedded as the functions
below instead of stored fields, keeping the state rational-valued. -/
structure MovePredictionEngine where
  history_depth : ℤ
  history : List StateVec
  weights : WeightTensor

/-- Engine field self.scoreScaler (line 118): 1.0 / math.log(history_depth). -/
noncomputable def MovePredictionEngine.scoreScaler (e : MovePredictionEngine) : ℝ :=
  1 / Real.log (e.history_depth : ℝ)

/-- Engine field self.ScoreScalerMiddle (line 119):
math.pow(history_depth / 2.0, scoreScaler), embedded with the real power. -/
noncomputable def MovePredictionEngine.ScoreScalerMiddle (e : MovePredictionEngine) : ℝ :=
  ((e.history_depth : ℝ) / 2) ^ e.scoreScaler

/-- State of a freshly constructed engine: empty history, all-zero tensor
(lines 106-108, 121-122). -/
def freshEngine (history_depth_count : ℤ) : MovePredictionEngine :=
  ⟨history_depth_count, [], fun _ _ _ => 0⟩

/-- Python math.log: raises ValueError (math domain error) for a non-positive
argument, embedded as none. -/
noncomputable def pyLog (x : ℝ) : Option ℝ :=
  if x ≤ 0 then none else some (Real.log x)

/-- Python float division: raises ZeroDivisionError when the denominator is 0,
embedded as none. -/
noncomputable def pyDivR (a b : ℝ) : Option ℝ :=
  if b = 0 then none else some (a / b)

/-- MovePredictionEngine(history_depth_count) (lines 105-122): the constructor
computes 1.0 / math.log(history_depth), which raises for history_depth <= 0
(log domain error) and for history_depth = 1 (division by zero, log 1 = 0);
otherwise the engine starts with empty history and a zero tensor. -/
noncomputable def createEngine (history_depth_count : ℤ) : Option MovePredictionEngine :=
  (pyLog (history_depth_count : ℝ)).bind (fun lg =>
    (pyDivR 1 lg).map (fun _ => freshEngine history_depth_count))

/-- MovePredictionEngine.get_target_state_and_weights (lines 188-194):
normalizes degrees == 360 to 0, takes t = floor(StateCount * degrees / 360),
t1_weight = 1 - ((t + 1) / StateCount - degrees / 360), t2_weight =
1 - t1_weight. -/
def get_target_state_and_weights (degrees : ℚ) : ℤ × ℚ × ℚ :=
  let d := if degrees = CircularRange then 0 else degrees
  let t : ℤ := ⌊(StateCount : ℚ) * (d / CircularRange)⌋
  let t1_weight : ℚ := 1 - ((((t : ℚ) + 1) / (StateCount : ℚ)) - (d / CircularRange))
  let t2_weight : ℚ := 1 - t1_weight
  (t, t1_weight, t2_weight)

/-- MovePredictionEngine.get_move (lines 177-186): looks up the base template
at index t (Python list indexing, so an out-of-range t is an IndexError and a
negative t in [-StateCount, 0) silently wraps), then for j in
range(1, StateCount + 1) sets the entry at offset j from t to the blend
base[t + j] * t1_weight + base[t + j - 1] * t2_weight. -/
def get_move (degrees : ℚ) : Option StateVec :=
  let tw := get_target_state_and_weights degrees
  (pyIdx StateCount tw.1).map (fun tfin =>
    let base_move := MoveWeights tfin
    (List.range' 1 StateCount).foldl (fun mv (j : ℕ) =>
      Function.update mv (offIdx tw.1 (j : ℤ))
        (base_move (offIdx tw.1 (j : ℤ)) * tw.2.1 +
          base_move (offIdx tw.1 ((j : ℤ) - 1)) * tw.2.2))
      zeroStates)

/-- Innermost loop body of record_move_and_get_predicted (lines 138-140), for
the cell at lag d, row i, column j: first the prediction read
pred[i] += hist_move[j] * weights[d][i][j] (the current, not-yet-updated cell
value), then the update weights[d][i][j] += move[i] * hist_move[j]. -/
def cellStep (move hist_move : StateVec) (d : ℕ) (i : Fin StateCount)
    (st : StateVec × WeightTensor) (j : Fin StateCount) : StateVec × WeightTensor :=
  (Function.update st.1 i (st.1 i + hist_move j * st.2 d i j),
   fun d' i' j' =>
     if d' = d ∧ i' = i ∧ j' = j then st.2 d i j + move i * hist_move j
     else st.2 d' i' j')

/-- Middle loop of record_move_and_get_predicted (lines 135-140): one row i,
iterating j over all columns. -/
def rowStep (move hist_move : StateVec) (d : ℕ)
    (st : StateVec × WeightTensor) (i : Fin StateCount) : StateVec × WeightTensor :=
  (List.finRange StateCount).foldl (cellStep move hist_move d i) st

/-- Outer loop body of record_move_and_get_predicted (lines 132-140): one lag
d, with hist_move = history[d], iterating i over all rows. -/
def lagStep (move : StateVec) (history : List StateVec)
    (st : StateVec × WeightTensor) (d : ℕ) : StateVec × WeightTensor :=
  let hist_move := history.getD d zeroStates
  (List.finRange StateCount).foldl (rowStep move hist_move d) st

/-- Core triple loop of record_move_and_get_predicted (lines 128-140), started
from a zero predicted Move and the current tensor, iterating d over
range(len(history)). -/
def record_core (history : List StateVec) (move : StateVec) (W : WeightTensor) :
    StateVec × WeightTensor :=
  (List.range history.length).foldl (lagStep move history) (zeroStates, W)

/-- MovePredictionEngine.record_move_and_get_predicted (lines 126-146): builds
the move vector (an out-of-range angle raises inside get_move), runs the core
loop, inserts the vector at the front of the history, pops the oldest entry if
the length now exceeds history_depth, and returns the predicted Move. -/
def record_move_and_get_predicted (e : MovePredictionEngine) (degrees : ℚ) :
    Option (MovePredictionEngine × StateVec) :=
  (get_move degrees).map (fun move =>
    let pW := record_core e.history move e.weights
    let h1 := move :: e.history
    (⟨e.history_depth, if (h1.length : ℤ) > e.history_depth then h1.dropLast else h1,
      pW.2⟩, pW.1))

/-- Python max() over the states list of a Move. -/
def statesMax (v : StateVec) : ℚ := Finset.univ.sup' Finset.univ_nonempty v

/-- Python min() over the states list of a Move. -/
def statesMin (v : StateVec) : ℚ := Finset.univ.inf' Finset.univ_nonempty v

/-- MovePredictionEngine.get_scoring_weight (lines 149-175). The method only
reads self, so the embedding returns the unchanged engine as first component
together with the (score, pos_add, neg_add) triple. sum_states is the sum of
absolute predicted states; when it is 0 the method returns (0, 0, 0) without
indexing predicted.states; otherwise predicted.states[t] uses Python indexing
(so a t outside [-StateCount, StateCount) is an IndexError), and the additions
are scaled by len(history) ^ scoreScaler over the reals. -/
noncomputable def get_scoring_weight (e : MovePredictionEngine) (degrees : ℚ)
    (predicted : StateVec) : MovePredictionEngine × Option (ℝ × ℝ × ℝ) :=
  let tw := get_target_state_and_weights degrees
  let sum_states : ℚ := ∑ k : Fin StateCount, |predicted k|
  (e,
    if 0 < sum_states then
      match pyIdx StateCount tw.1, pyIdx StateCount (get_index_at_offset tw.1 1) with
      | some ti, some oi =>
        let score : ℚ :=
          ((predicted ti * tw.2.1 + predicted oi * tw.2.2) / sum_states) * SumMoveWeights
        let max_state : ℚ := statesMax predicted
        let min_state : ℚ := statesMin predicted
        let max_abs : ℚ := max max_state |min_state|
        let score_range_normalizer : ℚ := (max_abs / sum_states) * SumMoveWeights
        let neg_add : ℚ := score_range_normalizer + score
        let pos_add : ℚ := score_range_normalizer - score
        let scaler : ℝ := (e.history.length : ℝ) ^ e.scoreScaler
        some (-((score : ℝ) * scaler / e.ScoreScalerMiddle),
          (pos_add : ℝ) * scaler, (neg_add : ℝ) * scaler)
      | _, _ => none
    else some (0, 0, 0))

/-- Loop body of test_score_move_series (lines 202-206): record the move, score
it against the returned prediction (on the post-record engine, as in the
source, where both calls run on the same mutated object), and accumulate the
positive and negative sums. -/
noncomputable def scoreLoopStep (st : MovePredictionEngine × ℝ × ℝ) (degree : ℚ) :
    Option (MovePredictionEngine × ℝ × ℝ) :=
  (record_move_and_get_predicted st.1 degree).bind (fun r =>
    ((get_scoring_weight r.1 degree r.2).2).map (fun sw =>
      (r.1, st.2.1 + sw.2.1, st.2.2 + sw.2.2)))

/-- MovePredictionEngine.test_score_move_series (lines 196-212): one engine
with history_depth = len(degrees), the accumulation loop, then the final
formula pos_sum / neg_sum when pos_sum < neg_sum and 2 - neg_sum / pos_sum
otherwise, times 100; the division is Python division and raises on a zero
denominator. -/
noncomputable def test_score_move_series (degrees : List ℚ) : Option ℝ :=
  (createEngine (degrees.length : ℤ)).bind (fun engine =>
    (degrees.foldlM scoreLoopStep (engine, 0, 0)).bind (fun st =>
      if st.2.1 < st.2.2 then (pyDivR st.2.1 st.2.2).map (fun q => q * 100)
      else (pyDivR st.2.2 st.2.1).map (fun q => (2 - q) * 100)))

/-- Specification-side description of the predicted vector (for the refinement
claims, following the spec wording): the sum over lags d < len(history) and
bins j of history[d][j] * tensor[d][i][j], with the tensor value taken at call
entry. -/
def predictedSpec (e : MovePredictionEngine) : StateVec := fun i =>
  ∑ d ∈ Finset.range e.history.length,
    ∑ j : Fin StateCount, e.history.getD d zeroStates j * e.weights d i j

/-- Specification-side description of the updated tensor (following the spec
wording): every touched cell gains vector[i] * history[d][j] on top of its
entry value; cells at lags beyond the current history length are unchanged. -/
def weightsSpec (e : MovePredictionEngine) (move : StateVec) : WeightTensor :=
  fun d i j =>
    e.weights d i j +
      if d < e.history.length then move i * e.history.getD d zeroStates j else 0

/-- Specification-side description of the history after a record call: the new
vector at the front, the oldest entry evicted when capacity is exceeded. -/
def newHistory (e : MovePredictionEngine) (move : StateVec) : List StateVec :=
  let h1 := move :: e.history
  if (h1.length : ℤ) > e.history_depth then h1.dropLast else h1

/-- Concrete move vector recorded for an angle of 0 degrees (used by concrete
evaluations below). -/
def move0 : StateVec := (get_move 0).getD zeroStates

/-- Concrete move vector recorded for an angle of 180 degrees. -/
def move180 : StateVec := (get_move 180).getD zeroStates

/-- Concrete move vector recorded for an angle of 24 degrees (bin-aligned:
StateCount * 24 / 360 = 2 exactly). -/
def move24 : StateVec := (get_move 24).getD zeroStates

/-! Index arithmetic -/

/-- The custom floor-based modulo of the source is the mathematical modulo. -/
theorem get_index_at_offset_eq_emod (t o : ℤ) :
    get_index_at_offset t o = (t + o) % (StateCount : ℤ) := by
  unfold get_index_at_offset
  rw [Int.fdiv_eq_ediv _ (by norm_num)]
  simp only [StateCount, Nat.cast_ofNat]
  omega

/-- Value of the in-range index produced by get_index_at_offset. -/
theorem offIdx_coe (t o : ℤ) :
    ((offIdx t o : Fin StateCount) : ℤ) = (t + o) % (StateCount : ℤ) := by
  show ((get_index_at_offset t o).toNat : ℤ) = _
  rw [get_index_at_offset_eq_emod]
  simp only [StateCount, Nat.cast_ofNat]
  omega

/-- Python list indexing fails exactly outside [-n, n). -/
theorem pyIdx_eq_none_iff (n : ℕ) (i : ℤ) :
    pyIdx n i = none ↔ (i < -(n : ℤ) ∨ (n : ℤ) ≤ i) := by
  unfold pyIdx
  split_ifs with h1 h2 <;> simp <;> omega

/-! The interpolation weights of get_target_state_and_weights -/

/-- The second weight is one minus the first, both weights are non-negative and
at most one, for every input angle (a consequence of the floor). -/
theorem target_weights (degrees : ℚ) :
    (get_target_state_and_weights degrees).2.2 = 1 - (get_target_state_and_weights degrees).2.1 ∧
      0 ≤ (get_target_state_and_weights degrees).2.1 ∧
      (get_target_state_and_weights degrees).2.1 ≤ 1 := by
  refine ⟨rfl, ?_, ?_⟩ <;>
  · simp only [get_target_state_and_weights]
    have h1 := Int.floor_le ((StateCount : ℚ) *
      ((if degrees = CircularRange then 0 else degrees) / CircularRange))
    have h2 := Int.lt_floor_add_one ((StateCount : ℚ) *
      ((if degrees = CircularRange then 0 else degrees) / CircularRange))
    set d : ℚ := if degrees = CircularRange then 0 else degrees with hd
    set t : ℤ := ⌊(StateCount : ℚ) * (d / CircularRange)⌋ with ht
    simp only [StateCount, CircularRange, Nat.cast_ofNat] at h1 h2 ⊢
    nlinarith [h1, h2]

/-! Domain of get_move -/

/-- get_move raises (an IndexError from the template lookup) exactly for angles
outside [-360, 360]. -/
theorem get_move_eq_none_iff (degrees : ℚ) :
    get_move degrees = none ↔ (degrees < -CircularRange ∨ CircularRange < degrees) := by
  unfold get_move
  rw [Option.map_eq_none']
  rw [pyIdx_eq_none_iff]
  simp only [get_target_state_and_weights]
  by_cases hdeg : degrees = CircularRange
  · rw [if_pos hdeg]
    subst hdeg
    norm_num [CircularRange]
  · rw [if_neg hdeg]
    have hx : (StateCount : ℚ) * (degrees / CircularRange) = degrees / 12 := by
      simp only [StateCount, CircularRange, Nat.cast_ofNat]
      ring
    rw [hx]
    have k1 : ⌊degrees / 12⌋ < -(StateCount : ℤ) ↔ degrees < -360 := by
      rw [show (-(StateCount : ℤ)) = (-30 : ℤ) by norm_num, Int.floor_lt,
        show (((-30 : ℤ) : ℚ)) = -30 by norm_num,
        div_lt_iff₀ (by norm_num : (0:ℚ) < 12)]
      constructor <;> intro h <;> linarith
    have k2 : (StateCount : ℤ) ≤ ⌊degrees / 12⌋ ↔ 360 ≤ degrees := by
      rw [show ((StateCount : ℤ)) = (30 : ℤ) by norm_num, Int.le_floor,
        show (((30 : ℤ) : ℚ)) = 30 by norm_num,
        le_div_iff₀ (by norm_num : (0:ℚ) < 12)]
      constructor <;> intro h <;> linarith
    rw [k1, k2]
    simp only [CircularRange] at hdeg ⊢
    constructor
    · rintro (h | h)
      · exact Or.inl h
      · exact Or.inr (lt_of_le_of_ne h (fun hh => hdeg hh.symm))
    · rintro (h | h)
      · exact Or.inl h
      · exact Or.inr h.le

/-! Characterization of the interleaved core loop. Every tensor cell is visited
at most once per call, and the prediction read of a cell happens before that
same cell's update, so the loop is equal to two sequential passes. The lemmas
below make this precise level by level (inner j loop, middle i loop, outer d
loop), by induction over a duplicate-free index list. -/

/-- Tensor contents after the inner j loop over a duplicate-free column list:
each visited cell of row (d, i) gains move i * hist_move j, nothing else
changes. -/
theorem cellStep_fold_snd (move hist_move : StateVec) (d : ℕ) (i : Fin StateCount)
    (l : List (Fin StateCount)) (hl : l.Nodup) (st : StateVec × WeightTensor)
    (d' : ℕ) (i' j' : Fin StateCount) :
    (l.foldl (cellStep move hist_move d i) st).2 d' i' j' =
      if d' = d ∧ i' = i ∧ j' ∈ l then st.2 d' i' j' + move i * hist_move j'
      else st.2 d' i' j' := by
  induction l generalizing st with
  | nil => simp
  | cons j0 tl ih =>
    have hj0tl : j0 ∉ tl := (List.nodup_cons.mp hl).1
    rw [List.foldl_cons, ih (List.Nodup.of_cons hl)]
    simp only [cellStep, List.mem_cons]
    by_cases hj0 : j' = j0
    · subst hj0
      by_cases hd : d' = d <;> by_cases hi : i' = i <;> simp [hd, hi, hj0tl]
    · by_cases hd : d' = d <;> by_cases hi : i' = i <;> by_cases hjl : j' ∈ tl <;>
        simp [hd, hi, hj0, hjl]

/-- Prediction vector after the inner j loop: entry i gains the dot product of
hist_move with row (d, i) of the tensor as it stood before the loop. -/
theorem cellStep_fold_fst (move hist_move : StateVec) (d : ℕ) (i : Fin StateCount)
    (l : List (Fin StateCount)) (hl : l.Nodup) (st : StateVec × WeightTensor)
    (i'' : Fin StateCount) :
    (l.foldl (cellStep move hist_move d i) st).1 i'' =
      st.1 i'' + if i'' = i then (l.map (fun j => hist_move j * st.2 d i j)).sum else 0 := by
  induction l generalizing st with
  | nil => simp
  | cons j0 tl ih =>
    have hj0tl : j0 ∉ tl := (List.nodup_cons.mp hl).1
    rw [List.foldl_cons, ih (List.Nodup.of_cons hl)]
    have hmap : tl.map (fun j => hist_move j * (cellStep move hist_move d i st j0).2 d i j) =
        tl.map (fun j => hist_move j * st.2 d i j) := by
      apply List.map_congr_left
      intro j hj
      have hjj0 : j ≠ j0 := fun hh => hj0tl (hh ▸ hj)
      simp [cellStep, hjj0]
    rw [hmap]
    by_cases hi : i'' = i
    · subst hi
      simp only [cellStep, Function.update_same, List.map_cons, List.sum_cons,
        eq_self_iff_true, if_true]
      ring
    · simp only [cellStep, Function.update_noteq hi, if_neg hi]

/-- Tensor contents after one full row step (all columns of row (d, i0)). -/
theorem rowStep_snd (move hist_move : StateVec) (d : ℕ)
    (st : StateVec × WeightTensor) (i0 : Fin StateCount)
    (d' : ℕ) (i' j' : Fin StateCount) :
    (rowStep move hist_move d st i0).2 d' i' j' =
      if d' = d ∧ i' = i0 then st.2 d' i' j' + move i0 * hist_move j'
      else st.2 d' i' j' := by
  unfold rowStep
  rw [cellStep_fold_snd move hist_move d i0 _ (List.nodup_finRange _) st d' i' j']
  simp only [List.mem_finRange, and_true]

/-- Prediction vector after one full row step. -/
theorem rowStep_fst (move hist_move : StateVec) (d : ℕ)
    (st : StateVec × WeightTensor) (i0 : Fin StateCount) (i' : Fin StateCount) :
    (rowStep move hist_move d st i0).1 i' =
      st.1 i' + if i' = i0 then
        ((List.finRange StateCount).map (fun j => hist_move j * st.2 d i0 j)).sum else 0 := by
  unfold rowStep
  rw [cellStep_fold_fst move hist_move d i0 _ (List.nodup_finRange _) st i']

/-- Tensor contents after the middle i loop over a duplicate-free row list. -/
theorem rowStep_fold_snd (move hist_move : StateVec) (d : ℕ)
    (li : List (Fin StateCount)) (hli : li.Nodup) (st : StateVec × WeightTensor)
    (d' : ℕ) (i' j' : Fin StateCount) :
    (li.foldl (rowStep move hist_move d) st).2 d' i' j' =
      if d' = d ∧ i' ∈ li then st.2 d' i' j' + move i' * hist_move j'
      else st.2 d' i' j' := by
  induction li generalizing st with
  | nil => simp
  | cons i0 tl ih =>
    have hi0tl : i0 ∉ tl := (List.nodup_cons.mp hli).1
    rw [List.foldl_cons, ih (List.Nodup.of_cons hli), rowStep_snd]
    simp only [List.mem_cons]
    by_cases hi0 : i' = i0
    · subst hi0
      by_cases hd : d' = d <;> simp [hd, hi0tl]
    · by_cases hd : d' = d <;> by_cases hil : i' ∈ tl <;> simp [hd, hi0, hil]

/-- Prediction vector after the middle i loop: each visited entry gains the dot
product of hist_move with its tensor row, read from the tensor as it stood
before the loop. -/
theorem rowStep_fold_fst (move hist_move : StateVec) (d : ℕ)
    (li : List (Fin StateCount)) (hli : li.Nodup) (st : StateVec × WeightTensor)
    (i' : Fin StateCount) :
    (li.foldl (rowStep move hist_move d) st).1 i' =
      st.1 i' + if i' ∈ li then
        ((List.finRange StateCount).map (fun j => hist_move j * st.2 d i' j)).sum else 0 := by
  induction li generalizing st with
  | nil => simp
  | cons i0 tl ih =>
    have hi0tl : i0 ∉ tl := (List.nodup_cons.mp hli).1
    rw [List.foldl_cons, ih (List.Nodup.of_cons hli), rowStep_fst]
    have hmap : ∀ ii : Fin StateCount, ii ≠ i0 →
        (List.finRange StateCount).map
            (fun j => hist_move j * (rowStep move hist_move d st i0).2 d ii j) =
          (List.finRange StateCount).map (fun j => hist_move j * st.2 d ii j) := by
      intro ii hii
      apply List.map_congr_left
      intro j _
      rw [rowStep_snd]
      simp [hii]
    simp only [List.mem_cons]
    by_cases hi0 : i' = i0
    · subst hi0
      simp [hi0tl]
    · by_cases hil : i' ∈ tl
      · rw [hmap i' hi0]
        simp [hi0, hil]
      · simp [hi0, hil]

/-- Tensor contents after one full lag step (all rows at lag d0). -/
theorem lagStep_snd (move : StateVec) (history : List StateVec)
    (st : StateVec × WeightTensor) (d0 : ℕ) (d' : ℕ) (i' j' : Fin StateCount) :
    (lagStep move history st d0).2 d' i' j' =
      if d' = d0 then st.2 d' i' j' + move i' * history.getD d0 zeroStates j'
      else st.2 d' i' j' := by
  unfold lagStep
  rw [rowStep_fold_snd _ _ _ _ (List.nodup_finRange _)]
  simp only [List.mem_finRange, and_true]

/-- Prediction vector after one full lag step. -/
theorem lagStep_fst (move : StateVec) (history : List StateVec)
    (st : StateVec × WeightTensor) (d0 : ℕ) (i' : Fin StateCount) :
    (lagStep move history st d0).1 i' =
      st.1 i' + ((List.finRange StateCount).map
        (fun j => history.getD d0 zeroStates j * st.2 d0 i' j)).sum := by
  unfold lagStep
  rw [rowStep_fold_fst _ _ _ _ (List.nodup_finRange _)]
  simp only [List.mem_finRange, if_true]

/-- Tensor contents after the outer d loop over a duplicate-free lag list. -/
theorem lagStep_fold_snd (move : StateVec) (history : List StateVec)
    (ld : List ℕ) (hld : ld.Nodup) (st : StateVec × WeightTensor)
    (d' : ℕ) (i' j' : Fin StateCount) :
    (ld.foldl (lagStep move history) st).2 d' i' j' =
      if d' ∈ ld then st.2 d' i' j' + move i' * history.getD d' zeroStates j'
      else st.2 d' i' j' := by
  induction ld generalizing st with
  | nil => simp
  | cons d0 tl ih =>
    have hd0tl : d0 ∉ tl := (List.nodup_cons.mp hld).1
    rw [List.foldl_cons, ih (List.Nodup.of_cons hld), lagStep_snd]
    simp only [List.mem_cons]
    by_cases hd0 : d' = d0
    · subst hd0
      simp [hd0tl]
    · by_cases hdl : d' ∈ tl <;> simp [hd0, hdl]

/-- Prediction vector after the outer d loop: the sum over the visited lags of
the dot products with the tensor rows as they stood before the loop. -/
theorem lagStep_fold_fst (move : StateVec) (history : List StateVec)
    (ld : List ℕ) (hld : ld.Nodup) (st : StateVec × WeightTensor)
    (i' : Fin StateCount) :
    (ld.foldl (lagStep move history) st).1 i' =
      st.1 i' + (ld.map (fun d => ((List.finRange StateCount).map
        (fun j => history.getD d zeroStates j * st.2 d i' j)).sum)).sum := by
  induction ld generalizing st with
  | nil => simp
  | cons d0 tl ih =>
    have hd0tl : d0 ∉ tl := (List.nodup_cons.mp hld).1
    rw [List.foldl_cons, ih (List.Nodup.of_cons hld), lagStep_fst]
    have hmap : tl.map (fun d => ((List.finRange StateCount).map
          (fun j => history.getD d zeroStates j * (lagStep move history st d0).2 d i' j)).sum) =
        tl.map (fun d => ((List.finRange StateCount).map
          (fun j => history.getD d zeroStates j * st.2 d i' j)).sum) := by
      apply List.map_congr_left
      intro d hd
      have hdd0 : d ≠ d0 := fun hh => hd0tl (hh ▸ hd)
      congr 1
      apply List.map_congr_left
      intro j _
      rw [lagStep_snd]
      simp [hdd0]
    rw [hmap]
    simp only [List.map_cons, List.sum_cons]
    ring

/-- Sum of a function mapped over List.range as a Finset sum. -/
theorem list_range_map_sum (n : ℕ) (f : ℕ → ℚ) :
    ((List.range n).map f).sum = ∑ d ∈ Finset.range n, f d := by
  induction n with
  | zero => simp
  | succ n ih =>
      rw [List.range_succ, List.map_append, List.sum_append, Finset.sum_range_succ, ih]
      simp

/-- Tensor cell after the full core loop: the entry value plus the update
increment move[i] * history[d][j] on the lags the loop visits, unchanged
beyond the history length. -/
theorem record_core_snd (history : List StateVec) (move : StateVec) (W : WeightTensor)
    (d : ℕ) (i j : Fin StateCount) :
    (record_core history move W).2 d i j =
      W d i j + if d < history.length then move i * history.getD d zeroStates j else 0 := by
  unfold record_core
  rw [lagStep_fold_snd _ _ _ (List.nodup_range _)]
  by_cases h : d < history.length <;> simp [List.mem_range, h]

/-- Predicted entry after the full core loop: the double sum of
history[d][j] * W[d][i][j] over all lags and bins, with W the tensor value at
call entry. -/
theorem record_core_fst (history : List StateVec) (move : StateVec) (W : WeightTensor)
    (i : Fin StateCount) :
    (record_core history move W).1 i =
      ∑ d ∈ Finset.range history.length,
        ∑ j : Fin StateCount, history.getD d zeroStates j * W d i j := by
  unfold record_core
  rw [lagStep_fold_fst _ _ _ (List.nodup_range _)]
  rw [list_range_map_sum]
  simp only [zeroStates, zero_add]
  exact Finset.sum_congr rfl (fun d _ => (Fin.sum_univ_def _).symm)

/-- Full characterization of record_move_and_get_predicted: on the angles where
it succeeds it returns the two-sequential-passes result, the prediction reading
the tensor's entry values and the tensor updated additively, with the history
pushed and trimmed. -/
theorem record_eq (e : MovePredictionEngine) (degrees : ℚ) :
    record_move_and_get_predicted e degrees =
      (get_move degrees).map (fun move =>
        (⟨e.history_depth, newHistory e move, weightsSpec e move⟩, predictedSpec e)) := by
  unfold record_move_and_get_predicted
  cases hg : get_move degrees with
  | none => rfl
  | some move =>
    simp only [Option.map_some']
    congr 1
    refine Prod.ext ?_ ?_
    · show (⟨e.history_depth, _, (record_core e.history move e.weights).2⟩ :
        MovePredictionEngine) = _
      simp only [MovePredictionEngine.mk.injEq]
      refine ⟨trivial, rfl, ?_⟩
      funext d i j
      rw [record_core_snd]
      rfl
    · show (record_core e.history move e.weights).1 = _
      funext i
      rw [record_core_fst]
      rfl

/-! Template geometry -/

/-- Circular distance from t to the bin at offset j from t. -/
theorem circular_distance_offIdx (t : Fin StateCount) (j : ℤ) :
    circular_distance t (offIdx (t : ℤ) j) =
      min ((j % (StateCount : ℤ)).toNat) (((-j) % (StateCount : ℤ)).toNat) := by
  unfold circular_distance
  rw [offIdx_coe]
  simp only [StateCount, Nat.cast_ofNat]
  congr 1 <;> omega

/-- Distance from a bin to itself is zero. -/
theorem circular_distance_self (t : Fin StateCount) : circular_distance t t = 0 := by
  simp [circular_distance]

/-! Bounds used by the scoring invariant -/

/-- Every entry is bounded in absolute value by
max(max(states), abs(min(states))). -/
theorem abs_le_max_abs_states (v : StateVec) (k : Fin StateCount) :
    |v k| ≤ max (statesMax v) |statesMin v| := by
  rw [abs_le]
  constructor
  · have h1 : statesMin v ≤ v k := Finset.inf'_le _ (Finset.mem_univ k)
    have h2 : -|statesMin v| ≤ statesMin v := neg_abs_le _
    have h3 : |statesMin v| ≤ max (statesMax v) |statesMin v| := le_max_right _ _
    linarith
  · have h1 : v k ≤ statesMax v := Finset.le_sup' _ (Finset.mem_univ k)
    have h2 : statesMax v ≤ max (statesMax v) |statesMin v| := le_max_left _ _
    linarith

/-- The normalization constant is non-negative (a sum of absolute values). -/
theorem SumMoveWeights_nonneg : 0 ≤ SumMoveWeights :=
  Finset.sum_nonneg (fun _ _ => abs_nonneg _)

/-- Python list indexing succeeds on every index in [-n, n). -/
theorem pyIdx_isSome_of (n : ℕ) (i : ℤ) (h : -(n : ℤ) ≤ i) (h2 : i < (n : ℤ)) :
    ∃ fi, pyIdx n i = some fi := by
  unfold pyIdx
  split_ifs with ha hb
  · exact ⟨_, rfl⟩
  · exact ⟨_, rfl⟩
  · omega

/-- The target state index lies in [0, StateCount) for angles in [0, 360]. -/
theorem target_t_range (degrees : ℚ) (h0 : 0 ≤ degrees) (h1 : degrees ≤ CircularRange) :
    0 ≤ (get_target_state_and_weights degrees).1 ∧
      (get_target_state_and_weights degrees).1 < (StateCount : ℤ) := by
  simp only [get_target_state_and_weights]
  by_cases hdeg : degrees = CircularRange
  · rw [if_pos hdeg]
    norm_num
  · rw [if_neg hdeg]
    constructor
    · apply Int.floor_nonneg.mpr
      apply mul_nonneg (by norm_num)
      exact div_nonneg h0 (by norm_num [CircularRange])
    · have he : (StateCount : ℚ) * (degrees / CircularRange) = degrees / 12 := by
        simp only [StateCount, CircularRange, Nat.cast_ofNat]
        ring
      have hlt : degrees < 360 := by
        simp only [CircularRange] at h1 hdeg
        exact lt_of_le_of_ne h1 hdeg
      have hxlt : (StateCount : ℚ) * (degrees / CircularRange) < ((StateCount : ℤ) : ℚ) := by
        rw [he]
        rw [div_lt_iff₀ (by norm_num : (0:ℚ) < 12)]
        push_cast
        linarith
      exact Int.floor_lt.mpr hxlt

/-- The offset index fed to the second predicted lookup is always in range. -/
theorem get_index_at_offset_range (t o : ℤ) :
    0 ≤ get_index_at_offset t o ∧ get_index_at_offset t o < (StateCount : ℤ) := by
  rw [get_index_at_offset_eq_emod]
  simp only [StateCount, Nat.cast_ofNat]
  omega

/-! Behavior of get_scoring_weight -/

/-- When every predicted entry is zero, the scoring call contributes nothing:
it returns (0, 0, 0). -/
theorem gsw_snd_pred_zero (e : MovePredictionEngine) (degrees : ℚ) (predicted : StateVec)
    (hz : ∀ k, predicted k = 0) :
    (get_scoring_weight e degrees predicted).2 = some (0, 0, 0) := by
  unfold get_scoring_weight
  dsimp only
  have hs : (∑ k : Fin StateCount, |predicted k|) = 0 :=
    Finset.sum_eq_zero (fun k _ => by rw [hz k]; exact abs_zero)
  rw [hs]
  rw [if_neg (lt_irrefl 0)]

/-- Both additive contributions returned by get_scoring_weight are
non-negative: the raw score is bounded in absolute value by the range
normalizer, and the recency scaler is a non-negative real power. -/
theorem gsw_snd_nonneg (e : MovePredictionEngine) (degrees : ℚ) (predicted : StateVec)
    (r : ℝ × ℝ × ℝ) (h : (get_scoring_weight e degrees predicted).2 = some r) :
    0 ≤ r.2.1 ∧ 0 ≤ r.2.2 := by
  unfold get_scoring_weight at h
  dsimp only at h
  by_cases hs : 0 < ∑ k : Fin StateCount, |predicted k|
  · rw [if_pos hs] at h
    cases h1 : pyIdx StateCount (get_target_state_and_weights degrees).1 with
    | none => rw [h1] at h; simp at h
    | some ti =>
      rw [h1] at h
      cases h2 : pyIdx StateCount
          (get_index_at_offset (get_target_state_and_weights degrees).1 1) with
      | none => rw [h2] at h; simp at h
      | some oi =>
        rw [h2] at h
        rw [Option.some.injEq] at h
        subst h
        constructor <;>
        · apply mul_nonneg _ (Real.rpow_nonneg (Nat.cast_nonneg _) _)
          rw [show ((0:ℝ)) = ((0 : ℚ) : ℝ) by norm_num, Rat.cast_le]
          have htw := target_weights degrees
          set t1 := (get_target_state_and_weights degrees).2.1 with ht1
          have ht2 : (get_target_state_and_weights degrees).2.2 = 1 - t1 := htw.1
          set M : ℚ := max (statesMax predicted) |statesMin predicted| with hM
          have habs1 : |predicted ti| ≤ M := abs_le_max_abs_states predicted ti
          have habs2 : |predicted oi| ≤ M := abs_le_max_abs_states predicted oi
          have hval : |predicted ti * t1 + predicted oi *
              (get_target_state_and_weights degrees).2.2| ≤ M := by
            rw [ht2]
            calc |predicted ti * t1 + predicted oi * (1 - t1)|
                ≤ |predicted ti * t1| + |predicted oi * (1 - t1)| := abs_add _ _
              _ = |predicted ti| * t1 + |predicted oi| * (1 - t1) := by
                  rw [abs_mul, abs_mul, abs_of_nonneg htw.2.1,
                    abs_of_nonneg (by linarith [htw.2.2] : (0:ℚ) ≤ 1 - t1)]
              _ ≤ M * t1 + M * (1 - t1) := by
                  have g1 := mul_le_mul_of_nonneg_right habs1 htw.2.1
                  have g2 := mul_le_mul_of_nonneg_right habs2
                    (by linarith [htw.2.2] : (0:ℚ) ≤ 1 - t1)
                  linarith
              _ = M := by ring
          have hbounds := abs_le.mp hval
          have hSW : (0:ℚ) ≤ SumMoveWeights := SumMoveWeights_nonneg
          rw [div_mul_eq_mul_div, div_mul_eq_mul_div]
          first
            | rw [← sub_div]
            | rw [← add_div]
          apply div_nonneg _ hs.le
          nlinarith [hbounds.1, hbounds.2, hSW]
  · rw [if_neg hs] at h
    rw [Option.some.injEq] at h
    subst h
    norm_num

/-- For an angle in [0, 360] the scoring call always succeeds (the predicted
lookups are in range). -/
theorem gsw_snd_isSome (e : MovePredictionEngine) (degrees : ℚ) (predicted : StateVec)
    (h0 : 0 ≤ degrees) (h1 : degrees ≤ CircularRange) :
    ∃ r, (get_scoring_weight e degrees predicted).2 = some r := by
  unfold get_scoring_weight
  dsimp only
  by_cases hs : 0 < ∑ k : Fin StateCount, |predicted k|
  · rw [if_pos hs]
    obtain ⟨htl, htr⟩ := target_t_range degrees h0 h1
    obtain ⟨ti, hti⟩ := pyIdx_isSome_of StateCount _ (by omega) htr
    obtain ⟨gl, gr⟩ := get_index_at_offset_range (get_target_state_and_weights degrees).1 1
    obtain ⟨oi, hoi⟩ := pyIdx_isSome_of StateCount _ (by omega) gr
    rw [hti, hoi]
    exact ⟨_, rfl⟩
  · rw [if_neg hs]
    exact ⟨_, rfl⟩

/-! Construction -/

/-- Successful construction: for history_depth > 1 the logarithm is positive,
so neither the log call nor the division raises. -/
theorem createEngine_of_one_lt (d : ℤ) (hd : 1 < d) :
    createEngine d = some (freshEngine d) := by
  unfold createEngine pyLog pyDivR
  have hpos : (0:ℝ) < (d : ℝ) := by exact_mod_cast lt_trans one_pos hd
  rw [if_neg (not_le.mpr hpos)]
  have hlog : Real.log (d : ℝ) ≠ 0 :=
    (Real.log_pos (by exact_mod_cast hd)).ne'
  simp [hlog]

/-! The accumulation loop of test_score_move_series -/

/-- Invariant of the accumulation loop: the positive and negative sums stay
non-negative (each step adds the non-negative contributions of
get_scoring_weight). -/
theorem scoreLoop_nonneg (l : List ℚ) :
    ∀ (st st' : MovePredictionEngine × ℝ × ℝ), 0 ≤ st.2.1 → 0 ≤ st.2.2 →
      l.foldlM scoreLoopStep st = some st' → 0 ≤ st'.2.1 ∧ 0 ≤ st'.2.2 := by
  induction l with
  | nil =>
    intro st st' h1 h2 h
    simp only [List.foldlM_nil, Option.pure_def, Option.some.injEq] at h
    subst h
    exact ⟨h1, h2⟩
  | cons a tl ih =>
    intro st st' h1 h2 h
    rw [List.foldlM_cons] at h
    cases hstep : scoreLoopStep st a with
    | none => rw [hstep] at h; simp at h
    | some st1 =>
      rw [hstep] at h
      simp only [Option.bind_eq_bind, Option.some_bind] at h
      unfold scoreLoopStep at hstep
      cases hr : record_move_and_get_predicted st.1 a with
      | none => rw [hr] at hstep; simp at hstep
      | some r =>
        rw [hr] at hstep
        simp only [Option.some_bind] at hstep
        cases hsw : (get_scoring_weight r.1 a r.2).2 with
        | none => rw [hsw] at hstep; simp at hstep
        | some sw =>
          rw [hsw] at hstep
          simp only [Option.map_some', Option.some.injEq] at hstep
          subst hstep
          have hnn := gsw_snd_nonneg r.1 a r.2 sw hsw
          exact ih _ st' (add_nonneg h1 hnn.1) (add_nonneg h2 hnn.2) h

/-! Record characterizations used by the concrete evaluations -/

/-- Elimination form of record_eq: a successful record call names a move
vector from get_move and yields the sequential-passes state. -/
theorem record_some_elim (e : MovePredictionEngine) (degrees : ℚ)
    (r : MovePredictionEngine × StateVec)
    (h : record_move_and_get_predicted e degrees = some r) :
    ∃ move, get_move degrees = some move ∧
      r = (⟨e.history_depth, newHistory e move, weightsSpec e move⟩, predictedSpec e) := by
  rw [record_eq] at h
  cases hg : get_move degrees with
  | none => rw [hg] at h; simp at h
  | some move =>
    rw [hg] at h
    simp only [Option.map_some', Option.some.injEq] at h
    exact ⟨move, rfl, h.symm⟩

/-- The predicted vector is identically zero whenever the tensor vanishes on
the lags the loop reads. -/
theorem predictedSpec_eq_zero (e : MovePredictionEngine)
    (hw : ∀ d i j, d < e.history.length → e.weights d i j = 0) :
    ∀ i, predictedSpec e i = 0 := by
  intro i
  unfold predictedSpec
  apply Finset.sum_eq_zero
  intro d hd
  apply Finset.sum_eq_zero
  intro j _
  rw [hw d i j (Finset.mem_range.mp hd), mul_zero]

/-- On a fresh engine, the first recorded move is predicted as the zero vector,
and the tensor stays zero: the update multiplies by an empty history. -/
theorem record_fresh_zero (depth : ℤ) (d1 : ℚ) (r1 : MovePredictionEngine × StateVec)
    (h : record_move_and_get_predicted (freshEngine depth) d1 = some r1) :
    (∀ i, r1.2 i = 0) ∧ (∀ d i j, r1.1.weights d i j = 0) := by
  obtain ⟨mv, hmv, hr⟩ := record_some_elim _ _ _ h
  subst hr
  constructor
  · exact predictedSpec_eq_zero _ (fun d i j _ => rfl)
  · intro d i j
    show weightsSpec (freshEngine depth) mv d i j = 0
    unfold weightsSpec
    simp [freshEngine]

/-- The predicted vector of the second move of a round is also identically
zero: the prediction reads the tensor before this call's own update, and after
one recorded move the tensor is still all zeros. -/
theorem predicted_first_two_zero (depth : ℤ) (d1 d2 : ℚ)
    (r1 r2 : MovePredictionEngine × StateVec)
    (h1 : record_move_and_get_predicted (freshEngine depth) d1 = some r1)
    (h2 : record_move_and_get_predicted r1.1 d2 = some r2) :
    (∀ i, r1.2 i = 0) ∧ (∀ i, r2.2 i = 0) := by
  have hz := record_fresh_zero depth d1 r1 h1
  refine ⟨hz.1, ?_⟩
  obtain ⟨mv2, hmv2, hr2⟩ := record_some_elim _ _ _ h2
  subst hr2
  exact predictedSpec_eq_zero _ (fun d i j _ => hz.2 d i j)

/-- A two-move round in which both recorded moves come back with an all-zero
predicted vector accumulates pos_sum = neg_sum = 0, and the final formula
2 - neg_sum / pos_sum then divides by zero: the whole scoring run raises
(none). Stated over abstract angles and record results. -/
theorem test_pair_zero_none (a b : ℚ) (r1 r2 : MovePredictionEngine × StateVec)
    (h1 : record_move_and_get_predicted (freshEngine 2) a = some r1)
    (h2 : record_move_and_get_predicted r1.1 b = some r2)
    (hz1 : ∀ i, r1.2 i = 0) (hz2 : ∀ i, r2.2 i = 0) :
    test_score_move_series [a, b] = none := by
  have hE : createEngine (([a, b] : List ℚ).length : ℤ) = some (freshEngine 2) := by
    have hl : ((([a, b] : List ℚ).length : ℕ) : ℤ) = 2 := by norm_num
    rw [hl]
    exact createEngine_of_one_lt 2 (by norm_num)
  have hstep1 : scoreLoopStep (freshEngine 2, (0 : ℝ), (0 : ℝ)) a =
      some (r1.1, (0 : ℝ), (0 : ℝ)) := by
    unfold scoreLoopStep
    rw [h1]
    simp only [Option.some_bind]
    rw [gsw_snd_pred_zero r1.1 a r1.2 hz1]
    simp only [Option.map_some']
    norm_num
  have hstep2 : scoreLoopStep (r1.1, (0 : ℝ), (0 : ℝ)) b =
      some (r2.1, (0 : ℝ), (0 : ℝ)) := by
    unfold scoreLoopStep
    rw [h2]
    simp only [Option.some_bind]
    rw [gsw_snd_pred_zero r2.1 b r2.2 hz2]
    simp only [Option.map_some']
    norm_num
  unfold test_score_move_series
  rw [hE]
  simp only [Option.some_bind]
  rw [List.foldlM_cons, hstep1]
  simp only [Option.bind_eq_bind, Option.some_bind]
  rw [List.foldlM_cons, hstep2]
  simp only [Option.bind_eq_bind, Option.some_bind, List.foldlM_nil, Option.pure_def,
    Option.some_bind]
  norm_num [pyDivR]

/-! Concrete move vectors -/

/-- An angle of 0 degrees is accepted; move0 is the recorded vector. -/
theorem get_move_zero_eq : get_move 0 = some move0 := rfl

/-- An angle of 180 degrees is accepted; move180 is the recorded vector. -/
theorem get_move_180_eq : get_move 180 = some move180 := rfl

/-- An angle of 24 degrees is accepted; move24 is the recorded vector. -/
theorem get_move_24_eq : get_move 24 = some move24 := rfl

set_option maxRecDepth 100000 in
/-- Concrete entry: the vector for 0 degrees holds 224/225 at bin 0 (not the
template value 1, because t1_weight is 29/30 there). -/
theorem move0_at_zero : move0 0 = 224 / 225 := by decide

set_option maxRecDepth 100000 in
/-- Concrete entry: the vector for 180 degrees holds -(224/225) at bin 0. -/
theorem move180_at_zero : move180 0 = -(224 / 225) := by decide

/-! Claim theorems -/

/-- Claim C2: record_move_and_get_predicted returns the predicted vector
predicted[i] = sum over lags d < len(history) and bins j of
history[d][j] * tensor[d][i][j] with the tensor read at call entry, and leaves
every tensor cell at its entry value plus vector[i] * history[d][j] (cells
beyond the history length unchanged), with the history pushed and trimmed: the
interleaved single-pass loop equals two sequential passes. -/
theorem claim_C2 (e : MovePredictionEngine) (degrees : ℚ) :
    record_move_and_get_predicted e degrees =
      (get_move degrees).map (fun move =>
        (⟨e.history_depth, newHistory e move, weightsSpec e move⟩, predictedSpec e)) :=
  record_eq e degrees

/-- Claim C3 (evaluation at the failing input): 24 degrees is bin-aligned
(t = 2, so StateCount * 24 / 360 = 2 exactly), yet the produced vector holds
224/225 at bin 2 where template 2 holds 1: the interpolation weights at a
bin-aligned angle are (29/30, 1/30), not (1, 0), so the template is not
reproduced. -/
theorem claim_C3 :
    get_move 24 = some move24 ∧
      get_target_state_and_weights 24 = (2, 29 / 30, 1 / 30) ∧
      move24 2 = 224 / 225 ∧ MoveWeights 2 2 = 1 ∧ move24 2 ≠ MoveWeights 2 2 := by
  refine ⟨get_move_24_eq, by decide, by decide, by decide, by decide⟩

/-- Claim C4: for an angle in [0, 360] and a predicted vector with positive
absolute sum, the scoring call succeeds and both returned contributions
pos_add and neg_add are non-negative (the raw score is bounded by the range
normalizer and the recency scaler is non-negative). -/
theorem claim_C4 (e : MovePredictionEngine) (degrees : ℚ) (predicted : StateVec)
    (h0 : 0 ≤ degrees) (h1 : degrees ≤ CircularRange)
    (hs : 0 < ∑ k : Fin StateCount, |predicted k|) :
    ∃ r, (get_scoring_weight e degrees predicted).2 = some r ∧ 0 ≤ r.2.1 ∧ 0 ≤ r.2.2 := by
  obtain ⟨r, hr⟩ := gsw_snd_isSome e degrees predicted h0 h1
  exact ⟨r, hr, (gsw_snd_nonneg e degrees predicted r hr).1,
    (gsw_snd_nonneg e degrees predicted r hr).2⟩

set_option maxRecDepth 100000 in
/-- Witness for claim C4 at the concrete input: angle 0, all-ones predicted
vector, a fresh depth-2 engine. -/
theorem claim_C4_witness :
    ∃ r, (get_scoring_weight (freshEngine 2) 0 (fun _ => 1)).2 = some r ∧
      0 ≤ r.2.1 ∧ 0 ≤ r.2.2 :=
  claim_C4 (freshEngine 2) 0 (fun _ => 1) (by norm_num)
    (by norm_num [CircularRange]) (by decide)

/-- Claim C6 (amended): record_move_and_get_predicted fails exactly for angles
outside [-360, 360] (the template lookup raises IndexError there; no input
validation exists, and angles in [-360, 0) are silently accepted through
Python negative indexing), and an angle of exactly 360 is normalized to 0 and
treated identically to 0. -/
theorem claim_C6 :
    (∀ (e : MovePredictionEngine) (degrees : ℚ),
      record_move_and_get_predicted e degrees = none ↔
        (degrees < -CircularRange ∨ CircularRange < degrees)) ∧
    (∀ e : MovePredictionEngine,
      record_move_and_get_predicted e 360 = record_move_and_get_predicted e 0) := by
  constructor
  · intro e degrees
    unfold record_move_and_get_predicted
    rw [Option.map_eq_none']
    exact get_move_eq_none_iff degrees
  · intro e
    unfold record_move_and_get_predicted
    have hgm : get_move 360 = get_move 0 := by
      unfold get_move
      have htw : get_target_state_and_weights 360 = get_target_state_and_weights 0 := by
        unfold get_target_state_and_weights
        norm_num [CircularRange]
      rw [htw]
    rw [hgm]

/-- Counterexample for claim C6 as stated: the angle -180 lies outside
[0, 360], yet the recording call succeeds (no error of any kind is raised). -/
theorem claim_C6_counterexample :
    (record_move_and_get_predicted (freshEngine 2) (-180)).isSome = true := by decide

/-- Claim C7: construction succeeds exactly for historyDepth > 1. For
historyDepth <= 0 math.log raises a domain error and for historyDepth = 1 the
expression 1 / log(1) divides by zero, both embedded as none; for every larger
integer the logarithm is positive and construction returns the fresh engine. -/
theorem claim_C7 (d : ℤ) : (createEngine d).isSome = true ↔ 1 < d := by
  constructor
  · intro h
    by_contra hle
    push_neg at hle
    unfold createEngine pyLog at h
    by_cases h0 : (d : ℝ) ≤ 0
    · rw [if_pos h0] at h
      simp at h
    · have hd1 : d = 1 := by
        have : (0 : ℤ) < d := by exact_mod_cast not_le.mp h0
        omega
      subst hd1
      rw [if_neg h0] at h
      simp only [Int.cast_one, Real.log_one] at h
      simp [pyDivR] at h
  · intro hd
    rw [createEngine_of_one_lt d hd]
    rfl

/-- Claim C8 (amended): the all-zero predicted vector is not limited to the
first move: on every round both the first and the second recorded move come
back with an identically zero predicted vector (the second move still reads an
all-zero tensor, because the prediction read precedes this call's own update).
-/
theorem claim_C8 (depth : ℤ) (d1 d2 : ℚ) (r1 r2 : MovePredictionEngine × StateVec)
    (h1 : record_move_and_get_predicted (freshEngine depth) d1 = some r1)
    (h2 : record_move_and_get_predicted r1.1 d2 = some r2) :
    (∀ i, r1.2 i = 0) ∧ (∀ i, r2.2 i = 0) :=
  predicted_first_two_zero depth d1 d2 r1 r2 h1 h2

/-- Witness for claim C8: the round [0, 0] on a fresh depth-2 engine. -/
theorem claim_C8_witness :
    ∃ r1 r2 : MovePredictionEngine × StateVec,
      record_move_and_get_predicted (freshEngine 2) 0 = some r1 ∧
      record_move_and_get_predicted r1.1 0 = some r2 ∧
      (∀ i, r1.2 i = 0) ∧ (∀ i, r2.2 i = 0) := by
  have h1 : record_move_and_get_predicted (freshEngine 2) 0 =
      some (⟨2, newHistory (freshEngine 2) move0, weightsSpec (freshEngine 2) move0⟩,
        predictedSpec (freshEngine 2)) := by
    rw [record_eq, get_move_zero_eq]
    rfl
  have h2 : record_move_and_get_predicted
      (⟨2, newHistory (freshEngine 2) move0, weightsSpec (freshEngine 2) move0⟩ :
        MovePredictionEngine) 0 =
      some (⟨2, newHistory (⟨2, newHistory (freshEngine 2) move0,
          weightsSpec (freshEngine 2) move0⟩ : MovePredictionEngine) move0,
        weightsSpec (⟨2, newHistory (freshEngine 2) move0,
          weightsSpec (freshEngine 2) move0⟩ : MovePredictionEngine) move0⟩,
        predictedSpec (⟨2, newHistory (freshEngine 2) move0,
          weightsSpec (freshEngine 2) move0⟩ : MovePredictionEngine)) := by
    rw [record_eq, get_move_zero_eq]
    rfl
  exact ⟨_, _, h1, h2, (claim_C8 2 0 0 _ _ h1 h2).1, (claim_C8 2 0 0 _ _ h1 h2).2⟩

/-- Counterexample for claim C8 as stated: on the round [0, 0] the second
move's predicted vector has sumAbsPredicted = 0, so an all-zero predicted
vector is possible after the first move. -/
theorem claim_C8_counterexample :
    ∃ r1 r2 : MovePredictionEngine × StateVec,
      record_move_and_get_predicted (freshEngine 2) 0 = some r1 ∧
      record_move_and_get_predicted r1.1 0 = some r2 ∧
      (∑ k : Fin StateCount, |r2.2 k|) = 0 := by
  have h1 : record_move_and_get_predicted (freshEngine 2) 0 =
      some (⟨2, newHistory (freshEngine 2) move0, weightsSpec (freshEngine 2) move0⟩,
        predictedSpec (freshEngine 2)) := by
    rw [record_eq, get_move_zero_eq]
    rfl
  have h2 : record_move_and_get_predicted
      (⟨2, newHistory (freshEngine 2) move0, weightsSpec (freshEngine 2) move0⟩ :
        MovePredictionEngine) 0 =
      some (⟨2, newHistory (⟨2, newHistory (freshEngine 2) move0,
          weightsSpec (freshEngine 2) move0⟩ : MovePredictionEngine) move0,
        weightsSpec (⟨2, newHistory (freshEngine 2) move0,
          weightsSpec (freshEngine 2) move0⟩ : MovePredictionEngine) move0⟩,
        predictedSpec (⟨2, newHistory (freshEngine 2) move0,
          weightsSpec (freshEngine 2) move0⟩ : MovePredictionEngine)) := by
    rw [record_eq, get_move_zero_eq]
    rfl
  refine ⟨_, _, h1, h2, ?_⟩
  have hz := (predicted_first_two_zero 2 0 0 _ _ h1 h2).2
  exact Finset.sum_eq_zero (fun k _ => by rw [hz k]; exact abs_zero)

/-- Claim C9 (amended): within a round the tensor is never reset: a successful
record call changes each cell [d][i][j] with d < len(history) only additively,
by vector[i] * history[d][j], and leaves every cell with d >= len(history)
unchanged. (The absolute cell value is not monotone; see the counterexample.)
-/
theorem claim_C9 (e : MovePredictionEngine) (degrees : ℚ)
    (r : MovePredictionEngine × StateVec)
    (h : record_move_and_get_predicted e degrees = some r)
    (d : ℕ) (i j : Fin StateCount) :
    (e.history.length ≤ d → r.1.weights d i j = e.weights d i j) ∧
    (d < e.history.length → ∃ move, get_move degrees = some move ∧
      r.1.weights d i j = e.weights d i j + move i * e.history.getD d zeroStates j) := by
  obtain ⟨mv, hmv, hr⟩ := record_some_elim e degrees r h
  subst hr
  constructor
  · intro hd
    show weightsSpec e mv d i j = _
    unfold weightsSpec
    rw [if_neg (not_lt.mpr hd), add_zero]
  · intro hd
    refine ⟨mv, hmv, ?_⟩
    show weightsSpec e mv d i j = _
    unfold weightsSpec
    rw [if_pos hd]

/-- Witness for claim C9: a fresh depth-2 engine, angle 0, cell at lag 5
(beyond the empty history), which is unchanged by the call. -/
theorem claim_C9_witness :
    ∃ r : MovePredictionEngine × StateVec,
      record_move_and_get_predicted (freshEngine 2) 0 = some r ∧
      r.1.weights 5 0 0 = (freshEngine 2).weights 5 0 0 := by
  have h1 : record_move_and_get_predicted (freshEngine 2) 0 =
      some (⟨2, newHistory (freshEngine 2) move0, weightsSpec (freshEngine 2) move0⟩,
        predictedSpec (freshEngine 2)) := by
    rw [record_eq, get_move_zero_eq]
    rfl
  exact ⟨_, h1, (claim_C9 (freshEngine 2) 0 _ h1 5 0 0).1
    (by simp [freshEngine])⟩

/-- Claim C10: get_scoring_weight does not mutate the engine (the embedding
returns self unchanged, mirroring a body with no field assignment), so
repeating the call on the returned state with the same arguments yields the
same result. -/
theorem claim_C10 (e : MovePredictionEngine) (degrees : ℚ) (predicted : StateVec) :
    (get_scoring_weight e degrees predicted).1 = e ∧
      (get_scoring_weight ((get_scoring_weight e degrees predicted).1) degrees
        predicted).2 = (get_scoring_weight e degrees predicted).2 :=
  ⟨rfl, rfl⟩

set_option maxRecDepth 1000000 in
/-- Claim C5: every template of the initialized model has weight
1 - (4/StateCount) * circular_distance(t, k) at bin k, is symmetric about its
own index (equal weights at offsets +j and -j for every integer offset), sums
to 0, and ranges from +1 at its own bin to -1 at the antipodal bin (offset
StateCount / 2 = 15). -/
theorem claim_C5 :
    (∀ t k : Fin StateCount,
      MoveWeights t k = 1 - BaseDiffPerState * (circular_distance t k : ℚ)) ∧
    (∀ (t : Fin StateCount) (j : ℤ),
      MoveWeights t (offIdx (t : ℤ) j) = MoveWeights t (offIdx (t : ℤ) (-j))) ∧
    (∀ t : Fin StateCount, ∑ k : Fin StateCount, MoveWeights t k = 0) ∧
    (∀ t : Fin StateCount,
      MoveWeights t t = 1 ∧ MoveWeights t (offIdx (t : ℤ) 15) = -1) := by
  have hform : ∀ t k : Fin StateCount,
      MoveWeights t k = 1 - BaseDiffPerState * (circular_distance t k : ℚ) := by decide
  refine ⟨hform, ?_, by decide, ?_⟩
  · intro t j
    rw [hform, hform, circular_distance_offIdx, circular_distance_offIdx, neg_neg,
      min_comm]
  · intro t
    constructor
    · rw [hform t t, circular_distance_self]
      norm_num
    · rw [hform, circular_distance_offIdx]
      have h15 : min (((15 : ℤ) % (StateCount : ℤ)).toNat)
          ((-(15 : ℤ) % (StateCount : ℤ)).toNat) = 15 := by decide
      rw [h15]
      norm_num [BaseDiffPerState]

/-- Counterexample for claim C9 as stated: on the round [0, 0, 180] with a
fresh depth-3 engine, the tensor cell [0][0][0] has absolute value
(224/225)^2 after the second call and 0 after the third (the third increment
cancels it), so the absolute cell value strictly decreases between calls. -/
theorem claim_C9_counterexample :
    ∃ r1 r2 r3 : MovePredictionEngine × StateVec,
      record_move_and_get_predicted (freshEngine 3) 0 = some r1 ∧
      record_move_and_get_predicted r1.1 0 = some r2 ∧
      record_move_and_get_predicted r2.1 180 = some r3 ∧
      |r3.1.weights 0 0 0| < |r2.1.weights 0 0 0| := by
  have h1 : record_move_and_get_predicted (freshEngine 3) 0 =
      some (⟨3, newHistory (freshEngine 3) move0, weightsSpec (freshEngine 3) move0⟩,
        predictedSpec (freshEngine 3)) := by
    rw [record_eq, get_move_zero_eq]
    rfl
  have h2 : record_move_and_get_predicted
      (⟨3, newHistory (freshEngine 3) move0, weightsSpec (freshEngine 3) move0⟩ :
        MovePredictionEngine) 0 =
      some (⟨3, newHistory (⟨3, newHistory (freshEngine 3) move0,
          weightsSpec (freshEngine 3) move0⟩ : MovePredictionEngine) move0,
        weightsSpec (⟨3, newHistory (freshEngine 3) move0,
          weightsSpec (freshEngine 3) move0⟩ : MovePredictionEngine) move0⟩,
        predictedSpec (⟨3, newHistory (freshEngine 3) move0,
          weightsSpec (freshEngine 3) move0⟩ : MovePredictionEngine)) := by
    rw [record_eq, get_move_zero_eq]
    rfl
  have h3 : record_move_and_get_predicted
      (⟨3, newHistory (⟨3, newHistory (freshEngine 3) move0,
          weightsSpec (freshEngine 3) move0⟩ : MovePredictionEngine) move0,
        weightsSpec (⟨3, newHistory (freshEngine 3) move0,
          weightsSpec (freshEngine 3) move0⟩ : MovePredictionEngine) move0⟩ :
        MovePredictionEngine) 180 =
      some (⟨3, newHistory (⟨3, newHistory (⟨3, newHistory (freshEngine 3) move0,
          weightsSpec (freshEngine 3) move0⟩ : MovePredictionEngine) move0,
        weightsSpec (⟨3, newHistory (freshEngine 3) move0,
          weightsSpec (freshEngine 3) move0⟩ : MovePredictionEngine) move0⟩ :
          MovePredictionEngine) move180,
        weightsSpec (⟨3, newHistory (⟨3, newHistory (freshEngine 3) move0,
          weightsSpec (freshEngine 3) move0⟩ : MovePredictionEngine) move0,
        weightsSpec (⟨3, newHistory (freshEngine 3) move0,
          weightsSpec (freshEngine 3) move0⟩ : MovePredictionEngine) move0⟩ :
          MovePredictionEngine) move180⟩,
        predictedSpec (⟨3, newHistory (⟨3, newHistory (freshEngine 3) move0,
          weightsSpec (freshEngine 3) move0⟩ : MovePredictionEngine) move0,
        weightsSpec (⟨3, newHistory (freshEngine 3) move0,
          weightsSpec (freshEngine 3) move0⟩ : MovePredictionEngine) move0⟩ :
          MovePredictionEngine)) := by
    rw [record_eq, get_move_180_eq]
    rfl
  refine ⟨_, _, _, h1, h2, h3, ?_⟩
  have hnh1 : newHistory (freshEngine 3) move0 = [move0] := by
    unfold newHistory freshEngine
    norm_num
  show |weightsSpec _ move180 0 0 0| < |weightsSpec _ move0 0 0 0|
  unfold weightsSpec
  simp only [hnh1]
  unfold newHistory
  norm_num [freshEngine, weightsSpec, move0_at_zero, move180_at_zero, List.getD]

/-- Claim C1 (amended): whenever test_score_move_series returns a value, that
value lies in [0, 200] (the accumulated sums are non-negative, so each branch
of the final formula is bounded); for sequences whose accumulated sums are both
zero the final formula divides by zero (ZeroDivisionError, embedded as none),
which does happen for sequences of length at least 2 (see the
counterexample). -/
theorem claim_C1 (degrees : List ℚ)
    (hin : ∀ a ∈ degrees, 0 ≤ a ∧ a ≤ CircularRange) (hlen : 2 ≤ degrees.length) :
    test_score_move_series degrees = none ∨
      ∃ x, test_score_move_series degrees = some x ∧ 0 ≤ x ∧ x ≤ 200 := by
  unfold test_score_move_series
  cases hE : createEngine (degrees.length : ℤ) with
  | none => left; rfl
  | some engine =>
    simp only [Option.some_bind]
    cases hF : degrees.foldlM scoreLoopStep (engine, 0, 0) with
    | none => left; rfl
    | some st =>
      simp only [Option.some_bind]
      obtain ⟨hp, hn⟩ :=
        scoreLoop_nonneg degrees (engine, 0, 0) st (le_refl 0) (le_refl 0) hF
      by_cases hlt : st.2.1 < st.2.2
      · rw [if_pos hlt]
        have hne : st.2.2 ≠ 0 := by
          intro h0
          rw [h0] at hlt
          linarith
        unfold pyDivR
        rw [if_neg hne]
        right
        refine ⟨st.2.1 / st.2.2 * 100, by simp, ?_, ?_⟩
        · exact mul_nonneg (div_nonneg hp hn) (by norm_num)
        · have hpos : 0 < st.2.2 := lt_of_le_of_lt hp hlt
          have hq : st.2.1 / st.2.2 ≤ 1 := (div_le_one hpos).mpr hlt.le
          nlinarith
      · rw [if_neg hlt]
        by_cases hz : st.2.1 = 0
        · left
          unfold pyDivR
          rw [if_pos hz]
          rfl
        · right
          unfold pyDivR
          rw [if_neg hz]
          have hppos : 0 < st.2.1 := lt_of_le_of_ne hp (Ne.symm hz)
          have hle : st.2.2 ≤ st.2.1 := not_lt.mp hlt
          have hq1 : st.2.2 / st.2.1 ≤ 1 := (div_le_one hppos).mpr hle
          have hq0 : 0 ≤ st.2.2 / st.2.1 := div_nonneg hn hp
          refine ⟨(2 - st.2.2 / st.2.1) * 100, by simp, ?_, ?_⟩
          · nlinarith
          · nlinarith

/-- Witness for claim C1: the sequence [0, 0] (both angles in [0, 360], length
2). -/
theorem claim_C1_witness :
    test_score_move_series [0, 0] = none ∨
      ∃ x, test_score_move_series [0, 0] = some x ∧ 0 ≤ x ∧ x ≤ 200 :=
  claim_C1 [0, 0] (by decide) (by decide)

/-- Counterexample for claim C1 as stated: the sequence [0, 0] has length 2 and
angles in [0, 360], yet both moves contribute (0, 0, 0) (their predicted
vectors are identically zero), so pos_sum = neg_sum = 0 and the final formula
2 - neg_sum / pos_sum divides by zero: the Python code raises
ZeroDivisionError instead of returning a number in [0, 200]. -/
theorem claim_C1_counterexample : test_score_move_series [0, 0] = none := by
  obtain ⟨r1, h1⟩ : ∃ r1, record_move_and_get_predicted (freshEngine 2) 0 = some r1 := by
    rw [record_eq, get_move_zero_eq]
    exact ⟨_, rfl⟩
  obtain ⟨r2, h2⟩ : ∃ r2, record_move_and_get_predicted r1.1 0 = some r2 := by
    rw [record_eq, get_move_zero_eq]
    exact ⟨_, rfl⟩
  have hz := predicted_first_two_zero 2 0 0 r1 r2 h1 h2
  exact test_pair_zero_none 0 0 r1 r2 h1 h2 hz.1 hz.2
